import Mathlib

/-!
Verification of the `TxManager` client (`api/transact.py`) of the pymaker
repository: the invocation-script binary encoding, the token-address array
conversion, and the error-handling behaviour of `owner` and `execute`.

Bytes are modelled as natural numbers (`Nat`), byte strings as `List Nat`.
External collaborators (the contract-call transport and the receipt
resolver) are modelled as function parameters returning `Except`, so that
"raises an exception" is `Except.error` and Python's `try/except` becomes a
`match` on the `Except` value.
-/

namespace Pymaker

/-- Modelled from the spec: `Address` (defined in the `api` package, outside
`src/`) is an immutable wrapper around a raw 20-byte account identifier.
Both its `.address` attribute and its `as_bytes()` method expose this
underlying value. -/
structure Address where
  raw : List Nat
deriving DecidableEq, Repr

/-- Modelled from the spec: `Address.as_bytes()` returns the raw byte value. -/
def Address.as_bytes (a : Address) : List Nat := a.raw

/-- Modelled from the spec: the `.address` attribute of an `Address`, the
value collected into the on-chain token array by `token_addresses`. -/
def Address.attr_address (a : Address) : List Nat := a.raw

/-- Modelled from the spec: `Calldata` (defined in the `api` package, outside
`src/`) is an immutable wrapper around an opaque ABI-encoded byte sequence,
exposed by `as_bytes()`. -/
structure Calldata where
  bytes : List Nat
deriving DecidableEq, Repr

/-- Modelled from the spec: `Calldata.as_bytes()` returns the raw byte value. -/
def Calldata.as_bytes (c : Calldata) : List Nat := c.bytes

/-- Source class `Invocation` (transact.py lines 27-38): a single smart contract method
invocation, holding a contract `address` and a `calldata`. -/
structure Invocation where
  address : Address
  calldata : Calldata
deriving DecidableEq, Repr

/-- A dynamically-typed Python value, as far as `Invocation.__init__`'s
`isinstance` asserts can distinguish one: an `Address`, a `Calldata`, or
any other value (collapsed to an opaque tag). -/
inductive PyValue where
  | pyAddress (a : Address)
  | pyCalldata (c : Calldata)
  | pyOther (tag : Nat)
deriving DecidableEq, Repr

/-- Whether a `PyValue` is an `Address` (`isinstance(v, Address)`). -/
def PyValue.isAddressVal : PyValue → Bool
  | .pyAddress _ => true
  | _ => false

/-- Whether a `PyValue` is a `Calldata` (`isinstance(v, Calldata)`). -/
def PyValue.isCalldataVal : PyValue → Bool
  | .pyCalldata _ => true
  | _ => false

/-- Constructor `Invocation.__init__` (transact.py lines 34-38): asserts
`isinstance(address, Address)` and `isinstance(calldata, Calldata)`, then
stores both fields. A failed assert raises before any field is stored,
modelled as `none` (no partial object). -/
def Invocation.construct : PyValue → PyValue → Option Invocation
  | .pyAddress a, .pyCalldata c => some ⟨a, c⟩
  | _, _ => none

/-- Big-endian base-256 digits of `n`, `w` bytes wide (the digit list of
`n % 256 ^ w`). -/
def bigEndianBytes : Nat → Nat → List Nat
  | 0, _ => []
  | w + 1, n => bigEndianBytes w (n / 256) ++ [n % 256]

/-- Python's `n.to_bytes(w, byteorder='big')` (transact.py line 85): the
big-endian `w`-byte encoding of `n`, raising `OverflowError` (modelled as
`none`) when `n` does not fit in `w` bytes. -/
def to_bytes (n w : Nat) : Option (List Nat) :=
  if n < 256 ^ w then some (bigEndianBytes w n) else none

/-- Source function `script_entry` (transact.py lines 83-86): `body` is the address bytes
followed by the calldata bytes; `header` is `len(body)` as a 32-byte
big-endian integer; the entry is `header + body`. -/
def script_entry (invocation : Invocation) : Option (List Nat) :=
  let body := invocation.address.as_bytes ++ invocation.calldata.as_bytes
  (to_bytes body.length 32).map (fun header => header ++ body)

/-- Source function `script` (transact.py lines 80-81): left fold of byte-string
concatenation over the entries of the invocations, starting from the empty
byte string (`reduce(operator.add, map(script_entry, invocations), bytes())`);
an exception raised while producing an entry propagates (as `none`). -/
def script (invocations : List Invocation) : Option (List Nat) :=
  invocations.foldlM (fun acc invocation => (script_entry invocation).map (acc ++ ·)) []

/-- Source function `token_addresses` (transact.py lines 77-78):
`list(map(lambda address: address.address, tokens))`. -/
def token_addresses (tokens : List Address) : List (List Nat) :=
  tokens.map Address.attr_address

/-- Source method `TxManager.owner` (transact.py lines 67-68):
`Address(self._contract.call().owner())`. The remote read is the parameter
`call_owner`; an error it raises propagates unchanged, a successful raw
result is wrapped into an `Address`. -/
def owner {ε : Type} (call_owner : Except ε (List Nat)) : Except ε Address :=
  call_owner.map Address.mk

/-- Source method `TxManager.execute` (transact.py lines 70-94), after the `isinstance`
list asserts (subsumed by typing): inside `try`, build the token array and
the script, submit via the transport (`transact`), and resolve the returned
transaction hash into a receipt (`prepare`, i.e. `_prepare_receipt`);
`except:` turns any raised error — script overflow, transport failure, or
receipt-resolution failure — into `None`. -/
def execute {ε τ ρ : Type} (tokens : List Address) (invocations : List Invocation)
    (transact : List (List Nat) → List Nat → Except ε τ)
    (prepare : τ → Except ε ρ) : Option ρ :=
  match script invocations with
  | none => none
  | some s =>
    match transact (token_addresses tokens) s with
    | .error _ => none
    | .ok tx_hash =>
      match prepare tx_hash with
      | .error _ => none
      | .ok receipt => some receipt

/-- Source class `TxManager` state (transact.py lines 61-65): the fields set in
`__init__` — the `web3` handle, the contract `address`, and the bound
`_contract` handle — and nothing else. Handle types are opaque parameters. -/
structure TxManager (W C : Type) where
  web3 : W
  address : Address
  contract : C

/-- Method `TxManager.owner` as a state transformer on the client: the method body
reads `self._contract` and assigns no attribute, so it returns its result
together with the client state it started from. -/
def TxManager.ownerS {W C ε : Type} (tm : TxManager W C)
    (call_owner : C → Except ε (List Nat)) :
    Except ε Address × TxManager W C :=
  (owner (call_owner tm.contract), tm)

/-- Method `TxManager.execute` as a state transformer on the client: the method body
reads `self._contract` and `self.web3` and assigns no attribute, so it
returns its result together with the client state it started from. -/
def TxManager.executeS {W C ε τ ρ : Type} (tm : TxManager W C)
    (tokens : List Address) (invocations : List Invocation)
    (transact : C → List (List Nat) → List Nat → Except ε τ)
    (prepare : W → τ → Except ε ρ) :
    Option ρ × TxManager W C :=
  (execute tokens invocations (transact tm.contract) (prepare tm.web3), tm)

/-- Big-endian value of a byte string (most significant byte first). -/
def fromBytesBE (l : List Nat) : Nat :=
  l.foldl (fun acc b => acc * 256 + b) 0

/-- The decoding procedure stated by the spec for the on-chain wire format:
repeatedly read a 32-byte big-endian length, then that many body bytes,
splitting each body into a 20-byte address and the remaining bytes as
calldata; the end of the byte string ends the record sequence. -/
def decodeScript (s : List Nat) : Option (List (List Nat × List Nat)) :=
  if hs : s = [] then some []
  else
    let header := s.take 32
    if header.length < 32 then none
    else
      let n := fromBytesBE header
      let rest := s.drop 32
      if rest.length < n then none
      else
        let body := rest.take n
        if body.length < 20 then none
        else
          match decodeScript (rest.drop n) with
          | none => none
          | some tl => some ((body.take 20, body.drop 20) :: tl)
termination_by s.length
decreasing_by
  have h0 : 0 < s.length := List.length_pos.mpr hs
  simp only [List.length_drop]
  omega


/-- Claim C6: for `invocations = []`, the script produced by `execute` is
the empty byte string (zero bytes). -/
theorem script_of_empty_invocations : script [] = some [] := rfl

/-- Counterexample to claim C4 as stated: for the single invocation with a
20-zero-byte address and empty calldata the produced script is NOT
`32 zero bytes ++ 20 zero bytes`, because the length field encodes the body
length 20 (address bytes count towards it), not 0. -/
theorem script_of_single_zero_invocation_cex :
    script [⟨⟨List.replicate 20 0⟩, ⟨[]⟩⟩]
      ≠ some (List.replicate 32 0 ++ List.replicate 20 0) := by
  decide

/-- Claim C4 (amended): for a single invocation whose address is 20 zero
bytes and whose calldata is empty, the produced script is the 32-byte
big-endian encoding of 20 (31 zero bytes then the byte 20) followed by the
20 zero address bytes, 52 bytes total, and its 32-byte length field decodes
to 20 = len(address) + len(calldata). -/
theorem script_of_single_zero_invocation :
    script [⟨⟨List.replicate 20 0⟩, ⟨[]⟩⟩]
      = some (bigEndianBytes 32 20 ++ List.replicate 20 0)
    ∧ bigEndianBytes 32 20 = List.replicate 31 0 ++ [20]
    ∧ (bigEndianBytes 32 20 ++ List.replicate 20 0).length = 52
    ∧ fromBytesBE ((bigEndianBytes 32 20 ++ List.replicate 20 0).take 32) = 20 := by
  refine ⟨by decide, by decide, by decide, by decide⟩

/-- Claim C8: constructing an `Invocation` succeeds exactly when the first
argument is an `Address` and the second a `Calldata`; on a type mismatch no
(partial) object is produced, and on success the object holds exactly the
two given arguments. -/
theorem invocation_construct_typechecks :
    (∀ a c : PyValue,
        (Invocation.construct a c).isSome = (a.isAddressVal && c.isCalldataVal))
    ∧ ∀ (a : Address) (c : Calldata),
        Invocation.construct (.pyAddress a) (.pyCalldata c) = some ⟨a, c⟩ := by
  constructor
  · intro a c
    cases a <;> cases c <;> rfl
  · intro a c
    rfl

/-- Claim C5: the on-chain token address array handed to the remote call is
the ordered list of the tokens' `.address` values, order preserved exactly:
`[A, B]` maps to exactly `[A.address, B.address]`, the array has the same
length as the input (no deduplication), and position `i` of the array is
the `.address` value of position `i` of the input (no sorting). -/
theorem token_addresses_preserves_order :
    (∀ A B : Address, token_addresses [A, B] = [A.attr_address, B.attr_address])
    ∧ (∀ tokens : List Address, (token_addresses tokens).length = tokens.length)
    ∧ ∀ (tokens : List Address) (i : Nat),
        (token_addresses tokens).get? i
          = (tokens.get? i).map Address.attr_address := by
  refine ⟨fun A B => rfl, fun tokens => ?_, fun tokens i => ?_⟩
  · simp [token_addresses]
  · simp [token_addresses]

/-- Claim C7: when the remote `owner` read raises an error, the client's
`owner` method propagates exactly that error; when it succeeds with a raw
value, `owner` returns it wrapped as an `Address`. -/
theorem owner_propagates_errors {ε : Type} :
    (∀ e : ε, owner (Except.error e : Except ε (List Nat)) = Except.error e)
    ∧ ∀ raw : List Nat,
        owner (Except.ok raw : Except ε (List Nat)) = Except.ok (Address.mk raw) :=
  ⟨fun _ => rfl, fun _ => rfl⟩

/-- Claim C3: if the remote transaction submission errors, or the receipt
resolution errors after a successful submission, `execute` returns `none`
(its `Option` result type carries no error channel, so no error reaches the
caller). -/
theorem execute_returns_none_on_failure {ε τ ρ : Type}
    (tokens : List Address) (invocations : List Invocation)
    (transact : List (List Nat) → List Nat → Except ε τ)
    (prepare : τ → Except ε ρ) (s : List Nat)
    (hscript : script invocations = some s)
    (hfail : (∃ e, transact (token_addresses tokens) s = Except.error e)
        ∨ ∃ h e, transact (token_addresses tokens) s = Except.ok h
            ∧ prepare h = Except.error e) :
    execute tokens invocations transact prepare = none := by
  unfold execute
  rw [hscript]
  rcases hfail with ⟨e, he⟩ | ⟨h, e, hok, herr⟩
  · simp [he]
  · simp [hok, herr]

/-- Witness for C3 at a concrete input: a transport that always errors makes
`execute` return `none`. -/
theorem execute_returns_none_on_failure_witness :
    @execute Nat Nat Nat [] [] (fun _ _ => Except.error 0) (fun _ => Except.ok 0)
      = none :=
  execute_returns_none_on_failure [] [] (fun _ _ => Except.error 0)
    (fun _ => Except.ok 0) [] rfl (Or.inl ⟨0, rfl⟩)

/-- Claim C9: neither `owner` nor `execute` mutates the client: run as state
transformers, both return the `TxManager` state exactly as it was, in
particular with the `address`, `web3` and `_contract` fields unchanged. -/
theorem owner_execute_preserve_client_state {W C ε τ ρ : Type}
    (tm : TxManager W C) (call_owner : C → Except ε (List Nat))
    (tokens : List Address) (invocations : List Invocation)
    (transact : C → List (List Nat) → List Nat → Except ε τ)
    (prepare : W → τ → Except ε ρ) :
    (tm.ownerS call_owner).2 = tm
    ∧ (tm.executeS tokens invocations transact prepare).2 = tm
    ∧ (tm.executeS tokens invocations transact prepare).2.address = tm.address
    ∧ (tm.executeS tokens invocations transact prepare).2.web3 = tm.web3
    ∧ (tm.executeS tokens invocations transact prepare).2.contract = tm.contract :=
  ⟨rfl, rfl, rfl, rfl, rfl⟩

/-- Spec-worded per-invocation entry, for comparison with `script_entry`:
the spec says the entry is the 32-byte big-endian encoding of the body
length followed by the body, where the body is the address bytes followed
immediately by the calldata bytes. -/
def entry_spec (invocation : Invocation) : List Nat :=
  let body := invocation.address.as_bytes ++ invocation.calldata.as_bytes
  bigEndianBytes 32 body.length ++ body

/-- Spec-worded whole script: the ordered concatenation, with no
separators, of one entry per invocation. -/
def script_spec (invocations : List Invocation) : List Nat :=
  (invocations.map entry_spec).join

theorem bigEndianBytes_length (w n : Nat) : (bigEndianBytes w n).length = w := by
  induction w generalizing n with
  | zero => rfl
  | succ w ih => simp [bigEndianBytes, ih]

theorem fromBytesBE_append_byte (l : List Nat) (b : Nat) :
    fromBytesBE (l ++ [b]) = fromBytesBE l * 256 + b := by
  simp [fromBytesBE, List.foldl_append]

theorem fromBytesBE_bigEndianBytes_mod (w n : Nat) :
    fromBytesBE (bigEndianBytes w n) = n % 256 ^ w := by
  induction w generalizing n with
  | zero => simp [bigEndianBytes, fromBytesBE, Nat.mod_one]
  | succ w ih =>
    rw [bigEndianBytes, fromBytesBE_append_byte, ih, pow_succ,
      mul_comm (256 ^ w) 256, Nat.mod_mul]
    omega

theorem pow256_32_eq : (256 : Nat) ^ 32 = 2 ^ 256 := by norm_num

theorem fromBytesBE_bigEndianBytes {w n : Nat} (h : n < 256 ^ w) :
    fromBytesBE (bigEndianBytes w n) = n := by
  rw [fromBytesBE_bigEndianBytes_mod, Nat.mod_eq_of_lt h]

theorem script_entry_eq_spec {invocation : Invocation}
    (h : (invocation.address.as_bytes ++ invocation.calldata.as_bytes).length < 2 ^ 256) :
    script_entry invocation = some (entry_spec invocation) := by
  have h2 : (invocation.address.as_bytes ++ invocation.calldata.as_bytes).length
      < 256 ^ 32 := by
    rw [pow256_32_eq]
    exact h
  have h3 : invocation.address.as_bytes.length + invocation.calldata.as_bytes.length
      < 256 ^ 32 := by
    simpa using h2
  simp [script_entry, entry_spec, to_bytes, h3]
  norm_num at h3
  exact h3

theorem script_foldlM_acc (invocations : List Invocation) (acc : List Nat) :
    List.foldlM (fun acc invocation => (script_entry invocation).map (acc ++ ·))
        acc invocations
      = (List.foldlM (fun acc invocation => (script_entry invocation).map (acc ++ ·))
          [] invocations).map (acc ++ ·) := by
  induction invocations generalizing acc with
  | nil => simp
  | cons i is ih =>
    rw [List.foldlM_cons, List.foldlM_cons]
    cases h : script_entry i with
    | none => simp [h]
    | some e =>
      simp only [h, Option.map_some', Option.bind_eq_bind, Option.some_bind,
        List.nil_append]
      rw [ih (acc ++ e), ih e]
      cases List.foldlM (fun acc invocation => (script_entry invocation).map (acc ++ ·))
          [] is <;>
        simp [List.append_assoc]

theorem script_cons (i : Invocation) (is : List Invocation) :
    script (i :: is) = (script_entry i).bind (fun e => (script is).map (e ++ ·)) := by
  unfold script
  rw [List.foldlM_cons]
  cases h : script_entry i with
  | none => simp [h]
  | some e =>
    simp only [h, Option.map_some', Option.bind_eq_bind, Option.some_bind,
      List.nil_append]
    rw [script_foldlM_acc]

theorem script_eq_spec {invocations : List Invocation}
    (hfit : ∀ i ∈ invocations,
      (i.address.as_bytes ++ i.calldata.as_bytes).length < 2 ^ 256) :
    script invocations = some (script_spec invocations) := by
  induction invocations with
  | nil => rfl
  | cons i is ih =>
    rw [script_cons, script_entry_eq_spec (hfit i (by simp)),
      ih (fun j hj => hfit j (by simp [hj]))]
    simp [script_spec]

/-- Claim C1: for every list of invocations (with each body length below
2 ^ 256, the bound Python's `int.to_bytes(32, 'big')` enforces by raising),
the script produced by `execute` is the ordered concatenation, with no
separators, of one entry per invocation, where the entry is the 32-byte
big-endian encoding of the body length followed by the body, the body being
the raw address bytes immediately followed by the raw calldata bytes. -/
theorem script_is_concat_of_entries (invocations : List Invocation)
    (hfit : ∀ i ∈ invocations,
      (i.address.as_bytes ++ i.calldata.as_bytes).length < 2 ^ 256) :
    script invocations = some ((invocations.map entry_spec).join) :=
  script_eq_spec hfit

/-- Witness for C1 at a concrete invocation list. -/
theorem script_is_concat_of_entries_witness :
    script [⟨⟨List.replicate 20 0⟩, ⟨[7]⟩⟩]
      = some (([(⟨⟨List.replicate 20 0⟩, ⟨[7]⟩⟩ : Invocation)].map entry_spec).join) :=
  script_is_concat_of_entries _ (by decide)

/-- Claim C10: the script encoding is a deterministic list homomorphism:
the script of a concatenation of invocation lists is the concatenation of
their scripts (with failure propagating), and equal invocation lists always
produce byte-identical scripts. -/
theorem script_append_hom (xs ys : List Invocation) :
    (script (xs ++ ys) = (script xs).bind (fun a => (script ys).map (a ++ ·)))
    ∧ (xs = ys → script xs = script ys) := by
  constructor
  · induction xs with
    | nil =>
      show script ys = (script []).bind fun a => (script ys).map (a ++ ·)
      cases script ys <;> rfl
    | cons i is ih =>
      rw [List.cons_append, script_cons, script_cons, ih]
      cases script_entry i <;> cases script is <;> cases script ys <;>
        simp [List.append_assoc]
  · intro hxy
    rw [hxy]

/-- Witness for C10 at concrete invocation lists. -/
theorem script_append_hom_witness :
    (script ([(⟨⟨List.replicate 20 0⟩, ⟨[]⟩⟩ : Invocation)]
          ++ [(⟨⟨List.replicate 20 1⟩, ⟨[2]⟩⟩ : Invocation)])
        = (script [(⟨⟨List.replicate 20 0⟩, ⟨[]⟩⟩ : Invocation)]).bind
            (fun a =>
              (script [(⟨⟨List.replicate 20 1⟩, ⟨[2]⟩⟩ : Invocation)]).map (a ++ ·)))
    ∧ script [(⟨⟨List.replicate 20 0⟩, ⟨[]⟩⟩ : Invocation)]
        = script [(⟨⟨List.replicate 20 0⟩, ⟨[]⟩⟩ : Invocation)] :=
  ⟨(script_append_hom _ _).1, (script_append_hom _ _).2 rfl⟩

theorem decodeScript_record (n : Nat) (body tail : List Nat)
    (hn : body.length = n) (hfit : n < 2 ^ 256) (h20 : 20 ≤ n) :
    decodeScript (bigEndianBytes 32 n ++ body ++ tail)
      = (decodeScript tail).map (fun tl => (body.take 20, body.drop 20) :: tl) := by
  have hlen : (bigEndianBytes 32 n).length = 32 := bigEndianBytes_length 32 n
  have hne : bigEndianBytes 32 n ++ body ++ tail ≠ [] := by
    intro hcontra
    have : (bigEndianBytes 32 n ++ body ++ tail).length = 0 := by rw [hcontra]; rfl
    simp [hlen] at this
  have h256 : n < 256 ^ 32 := by
    rw [pow256_32_eq]
    exact hfit
  have hfrom : fromBytesBE (bigEndianBytes 32 n) = n := fromBytesBE_bigEndianBytes h256
  have htake : (bigEndianBytes 32 n ++ body ++ tail).take 32 = bigEndianBytes 32 n := by
    rw [List.append_assoc, List.take_left' hlen]
  have hdrop : (bigEndianBytes 32 n ++ body ++ tail).drop 32 = body ++ tail := by
    rw [List.append_assoc, List.drop_left' hlen]
  have htakeB : (body ++ tail).take n = body := List.take_left' hn
  have hdropB : (body ++ tail).drop n = tail := List.drop_left' hn
  have hlenB : ¬ ((body ++ tail).length < n) := by
    simp [List.length_append, hn]
  rw [decodeScript, dif_neg hne]
  simp only [htake, hdrop, hfrom, htakeB, hdropB, hlenB, hlen, hn, h20,
    lt_irrefl, if_false, if_neg, Nat.not_lt]
  cases decodeScript tail <;> rfl

theorem decodeScript_script_spec {invocations : List Invocation}
    (haddr : ∀ i ∈ invocations, i.address.as_bytes.length = 20)
    (hfit : ∀ i ∈ invocations,
      (i.address.as_bytes ++ i.calldata.as_bytes).length < 2 ^ 256) :
    decodeScript (script_spec invocations)
      = some (invocations.map fun i => (i.address.as_bytes, i.calldata.as_bytes)) := by
  induction invocations with
  | nil =>
    show decodeScript [] = some []
    rw [decodeScript]
    simp
  | cons i is ih =>
    have ha : i.address.as_bytes.length = 20 := haddr i (by simp)
    have hf : (i.address.as_bytes ++ i.calldata.as_bytes).length < 2 ^ 256 :=
      hfit i (by simp)
    show decodeScript
        ((bigEndianBytes 32 (i.address.as_bytes ++ i.calldata.as_bytes).length
            ++ (i.address.as_bytes ++ i.calldata.as_bytes)) ++ script_spec is) = _
    rw [decodeScript_record ((i.address.as_bytes ++ i.calldata.as_bytes).length)
        (i.address.as_bytes ++ i.calldata.as_bytes) (script_spec is) rfl hf
        (by rw [List.length_append, ha]; omega),
      ih (fun j hj => haddr j (by simp [hj])) (fun j hj => hfit j (by simp [hj]))]
    simp [List.take_left' ha, List.drop_left' ha]

/-- Claim C2: for every non-empty list of invocations whose addresses are
exactly 20 bytes (and whose body lengths fit in 32 bytes, as Python's
`int.to_bytes` requires), decoding the produced script — repeatedly reading
a 32-byte big-endian length, then that many body bytes, split into a
20-byte address and the remaining calldata — reproduces the exact original
(address, calldata) sequence in order, and the length field of every record
equals len(address bytes) + len(calldata bytes). -/
theorem script_roundtrip_decode (invocations : List Invocation)
    (_hne : invocations ≠ [])
    (haddr : ∀ i ∈ invocations, i.address.as_bytes.length = 20)
    (hfit : ∀ i ∈ invocations,
      (i.address.as_bytes ++ i.calldata.as_bytes).length < 2 ^ 256) :
    ∃ s, script invocations = some s
      ∧ decodeScript s
          = some (invocations.map fun i => (i.address.as_bytes, i.calldata.as_bytes))
      ∧ ∀ i ∈ invocations,
          fromBytesBE (bigEndianBytes 32
              (i.address.as_bytes ++ i.calldata.as_bytes).length)
            = i.address.as_bytes.length + i.calldata.as_bytes.length := by
  refine ⟨script_spec invocations, script_eq_spec hfit,
    decodeScript_script_spec haddr hfit, ?_⟩
  intro i hi
  have h256 : (i.address.as_bytes ++ i.calldata.as_bytes).length < 256 ^ 32 := by
    rw [pow256_32_eq]
    exact hfit i hi
  rw [fromBytesBE_bigEndianBytes h256, List.length_append]

/-- Witness for C2 at a concrete one-invocation list with a 20-byte address
and a 1-byte calldata. -/
theorem script_roundtrip_decode_witness :
    ∃ s, script [(⟨⟨List.replicate 20 0⟩, ⟨[7]⟩⟩ : Invocation)] = some s
      ∧ decodeScript s
          = some ([(⟨⟨List.replicate 20 0⟩, ⟨[7]⟩⟩ : Invocation)].map
              fun i => (i.address.as_bytes, i.calldata.as_bytes))
      ∧ ∀ i ∈ [(⟨⟨List.replicate 20 0⟩, ⟨[7]⟩⟩ : Invocation)],
          fromBytesBE (bigEndianBytes 32
              (i.address.as_bytes ++ i.calldata.as_bytes).length)
            = i.address.as_bytes.length + i.calldata.as_bytes.length :=
  script_roundtrip_decode _ (by decide) (by decide) (by decide)

end Pymaker
